import Mathlib

/-!
Shallow embedding of `discovery-infra/log_scrap.py` (the event-scraping and
indexing pipeline) and proofs of the specification claims about it.

Python dictionaries are modelled as insertion-ordered association lists
(`Dict`), JSON-like values as the inductive `Value`.  External collaborators
(`monitoring.process.is_event_skippable`, `GetProcessedMetadataJson`, the
elasticsearch client, `random.shuffle`) are parameters of the embedded
functions, exactly as the spec treats them.
-/

set_option autoImplicit false

namespace LogScrap

/-- JSON-like values appearing in cluster metadata and events. -/
inductive Value where
  | str (s : String)
  | obj (fields : List (String × Value))
  | arr (elems : List Value)
  | null
deriving Repr

/-- A Python dict: insertion-ordered association list, one entry per key. -/
abbrev Dict := List (String × Value)

/-- Dictionary lookup (`d[k]` / `d.get(k)`): first entry with the key. -/
def dictLookup (d : Dict) (k : String) : Option Value :=
  match d with
  | [] => none
  | (k', v) :: rest => if k' = k then some v else dictLookup rest k

/-- Assignment `d[k] = v`: replace the value at `k` in place, or append. -/
def dictInsert (d : Dict) (k : String) (v : Value) : Dict :=
  match d with
  | [] => [(k, v)]
  | (k', v') :: rest =>
      if k' = k then (k', v) :: rest else (k', v') :: dictInsert rest k v

/-- Python `d.update(e)`: assign each of `e`'s entries into `d`, in order. -/
def dictUpdate (d e : Dict) : Dict :=
  e.foldl (fun acc kv => dictInsert acc kv.1 kv.2) d

/-- Python truthiness of a JSON-like value (`if host_name:`). -/
def valueTruthy : Value → Bool
  | .str s => s != ""
  | .obj fields => !fields.isEmpty
  | .arr elems => !elems.isEmpty
  | .null => false

/-- The keys of a dict. -/
def dictKeys (d : Dict) : List String := d.map Prod.fst

/-! ### Python string.replace -/

/-- Python `s.replace("", rep)`: `rep` is inserted before every character
and once at the end (`"abc".replace("", "X") = "XaXbXcX"`). -/
def replaceEmptyPat (rep : List Char) : List Char → List Char
  | [] => rep
  | c :: rest => rep ++ c :: replaceEmptyPat rep rest

/-- Python `s.replace(pat, rep)` for non-empty `pat`: replace each
non-overlapping occurrence, scanning left to right.  Structural recursion on
a fuel that starts at the input length; every step consumes at least one
character (a replaced occurrence consumes `pat.length ≥ 1`), so with that
initial fuel the `0` branch is never reached. -/
def replaceAllAux (pat rep : List Char) : Nat → List Char → List Char
  | _, [] => []
  | 0, s => s
  | fuel + 1, c :: rest =>
      if pat.isPrefixOf (c :: rest) then
        rep ++ replaceAllAux pat rep fuel (rest.drop (pat.length - 1))
      else c :: replaceAllAux pat rep fuel rest

/-- Python `s.replace(pat, rep)`: replace each non-overlapping occurrence of
`pat`, scanning left to right; the empty pattern matches before every
character and at the end. -/
def replaceAll (pat rep : List Char) (s : List Char) : List Char :=
  if pat = [] then replaceEmptyPat rep s
  else replaceAllAux pat rep s.length s

/-- Python `s.replace(pat, rep)` on `String`. -/
def pyReplace (s pat rep : String) : String := ⟨replaceAll pat.data rep.data s.data⟩

/-! ### The UUID regex

Source: `UUID_REGEX = r'[a-f0-9]{8}-?[a-f0-9]{4}-?4[a-f0-9]{3}-?[89ab][a-f0-9]{3}-?[a-f0-9]{12}'`.

The character class `[a-f0-9]` never matches `-`, `4` or the variant
characters are themselves in the class, and each `-?` is decided by whether
the next character is a hyphen, so the regex is matched by a deterministic
greedy scanner with no backtracking. -/

/-- Membership in the character class `[a-f0-9]` (lowercase only, as in the
source regex, which is compiled without `re.IGNORECASE`). -/
def isHexLower (c : Char) : Bool := ('a' ≤ c && c ≤ 'f') || ('0' ≤ c && c ≤ '9')

/-- Consume exactly `n` characters of the class `[a-f0-9]`, returning the
rest of the input. -/
def expectHex : Nat → List Char → Option (List Char)
  | 0, s => some s
  | _ + 1, [] => none
  | n + 1, c :: rest => if isHexLower c then expectHex n rest else none

/-- Greedy `-?`: consume one hyphen when present. -/
def skipHyphen (s : List Char) : List Char :=
  match s with
  | c :: rest => if c = '-' then rest else c :: rest
  | [] => []

/-- Consume exactly the character `c` (the literal `4` of the regex). -/
def expectChar (c : Char) : List Char → Option (List Char)
  | [] => none
  | d :: rest => if d = c then some rest else none

/-- Membership in the character class `[89ab]` (the UUID variant nibble). -/
def isVariantChar (c : Char) : Bool := c = '8' || c = '9' || c = 'a' || c = 'b'

/-- Consume exactly one character of the class `[89ab]`. -/
def expectVariant : List Char → Option (List Char)
  | [] => none
  | d :: rest => if isVariantChar d then some rest else none

/-- Match `UUID_REGEX` at the head of the input; `some rest` is the input
with the matched prefix removed. -/
def matchUUID (s : List Char) : Option (List Char) :=
  (expectHex 8 s).bind fun s1 =>
  (expectHex 4 (skipHyphen s1)).bind fun s2 =>
  (expectChar '4' (skipHyphen s2)).bind fun s3 =>
  (expectHex 3 s3).bind fun s4 =>
  (expectVariant (skipHyphen s4)).bind fun s5 =>
  (expectHex 3 s5).bind fun s6 =>
  expectHex 12 (skipHyphen s6)

/-- Python `re.sub(UUID_REGEX, "UUID", s)`: scan left to right; at each
position substitute the leftmost match and resume after it, otherwise move
one character forward.  Structural recursion on a fuel that starts at the
input length; every step consumes at least one character
(`matchUUID_length`), so with that initial fuel the `0` branch is never
reached. -/
def subUUIDFuel : Nat → List Char → List Char
  | _, [] => []
  | 0, s => s
  | fuel + 1, c :: rest =>
      match matchUUID (c :: rest) with
      | some remaining => 'U' :: 'U' :: 'I' :: 'D' :: subUUIDFuel fuel remaining
      | none => c :: subUUIDFuel fuel rest

/-- The UUID substitution pass on `String`. -/
def subUUID (s : String) : String := ⟨subUUIDFuel s.data.length s.data⟩

/-! ### Stripping the host prefix: re.sub of the pattern anchored at the
start, literal "Host ", one or more non-whitespace, then a colon. -/

/-- Python `\s` complement on the characters `\S` rejects (ASCII range; the
messages scrubbed here are ASCII JSON event texts). -/
def isPySpace (c : Char) : Bool :=
  c = ' ' || c = '\t' || c = '\n' || c = '\r' || c = '\x0b' || c = '\x0c'

/-- Index of the last colon in a character list, if any. -/
def lastColonIdx : List Char → Option Nat
  | [] => none
  | c :: rest =>
      match lastColonIdx rest with
      | some j => some (j + 1)
      | none => if c = ':' then some 0 else none

/-- Python `re.sub(r"^Host \S+:", "", s)`.  The greedy `\S+` with the
following colon matches through the last colon (at index at least 1, since
`\S+` needs one character) of the maximal non-whitespace run after
`"Host "`; the match, when any, is removed. -/
def stripHost (s : String) : String :=
  let cs := s.data
  if ('H' :: 'o' :: 's' :: 't' :: ' ' :: []).isPrefixOf cs then
    let rest := cs.drop 5
    let run := rest.takeWhile (fun c => !isPySpace c)
    match lastColonIdx run with
    | some j => if 1 ≤ j then ⟨rest.drop (j + 1)⟩ else s
    | none => s
  else s

/-! ### get_no_name_message -/

/-- Source `get_no_name_message`: replace each name by `"Name"` in sequence,
substitute UUIDs, then strip the leading host prefix. -/
def get_no_name_message (event_message : String) (event_names : List String) : String :=
  let m1 := event_names.foldl (fun msg name => pyReplace msg name "Name") event_message
  let m2 := subUUID m1
  stripHost m2

/-! ### get_cluster_object_names -/

/-- The loop body of `get_cluster_object_names`: for each host dict,
`host.get("requested_hostname", None)` is appended when truthy.  A host that
is not a dict, or a truthy non-string hostname (which the later
`str.replace` call could not consume), is outside the model: `none`. -/
def collectHostNames : List Value → Option (List String)
  | [] => some []
  | .obj h :: rest =>
      match dictLookup h "requested_hostname" with
      | some v =>
          if valueTruthy v then
            match v with
            | .str s => (collectHostNames rest).map (fun ns => s :: ns)
            | _ => none
          else collectHostNames rest
      | none => collectHostNames rest
  | _ :: _ => none

/-- Source `get_cluster_object_names`: the truthy `requested_hostname` of
each host of `cluster_bash_data["cluster"]["hosts"]`, in host order, then
`cluster_bash_data["cluster"]["name"]` appended unconditionally.  `none`
models the Python exceptions on missing keys or non-dict shapes. -/
def get_cluster_object_names (cluster_bash_data : Dict) : Option (List String) :=
  match dictLookup cluster_bash_data "cluster" with
  | some (.obj cl) =>
      match dictLookup cl "hosts" with
      | some (.arr hosts) =>
          (collectHostNames hosts).bind fun names =>
          match dictLookup cl "name" with
          | some (.str nm) => some (names ++ [nm])
          | _ => none
      | _ => none
  | _ => none

/-! ### MD5 and get_doc_id

`hashlib.md5` is embedded as the full MD5 algorithm (RFC 1321) over byte
lists, with 32-bit words as `Nat` reduced mod `2 ^ 32`. -/

/-- Bitwise complement on 32-bit words represented as `Nat`. -/
def not32 (x : Nat) : Nat := Nat.xor x (2 ^ 32 - 1)

/-- Left rotation of a 32-bit word. -/
def rotl32 (x s : Nat) : Nat :=
  Nat.lor ((x <<< s) % 2 ^ 32) (x >>> (32 - s))

/-- The 64 MD5 sine-table constants `K[i]`. -/
def md5K : List Nat :=
  [0xd76aa478, 0xe8c7b756, 0x242070db, 0xc1bdceee,
   0xf57c0faf, 0x4787c62a, 0xa8304613, 0xfd469501,
   0x698098d8, 0x8b44f7af, 0xffff5bb1, 0x895cd7be,
   0x6b901122, 0xfd987193, 0xa679438e, 0x49b40821,
   0xf61e2562, 0xc040b340, 0x265e5a51, 0xe9b6c7aa,
   0xd62f105d, 0x02441453, 0xd8a1e681, 0xe7d3fbc8,
   0x21e1cde6, 0xc33707d6, 0xf4d50d87, 0x455a14ed,
   0xa9e3e905, 0xfcefa3f8, 0x676f02d9, 0x8d2a4c8a,
   0xfffa3942, 0x8771f681, 0x6d9d6122, 0xfde5380c,
   0xa4beea44, 0x4bdecfa9, 0xf6bb4b60, 0xbebfbc70,
   0x289b7ec6, 0xeaa127fa, 0xd4ef3085, 0x04881d05,
   0xd9d4d039, 0xe6db99e5, 0x1fa27cf8, 0xc4ac5665,
   0xf4292244, 0x432aff97, 0xab9423a7, 0xfc93a039,
   0x655b59c3, 0x8f0ccc92, 0xffeff47d, 0x85845dd1,
   0x6fa87e4f, 0xfe2ce6e0, 0xa3014314, 0x4e0811a1,
   0xf7537e82, 0xbd3af235, 0x2ad7d2bb, 0xeb86d391]

/-- The 64 MD5 per-round left-rotation amounts `s[i]`. -/
def md5S : List Nat :=
  [7, 12, 17, 22, 7, 12, 17, 22, 7, 12, 17, 22, 7, 12, 17, 22,
   5, 9, 14, 20, 5, 9, 14, 20, 5, 9, 14, 20, 5, 9, 14, 20,
   4, 11, 16, 23, 4, 11, 16, 23, 4, 11, 16, 23, 4, 11, 16, 23,
   6, 10, 15, 21, 6, 10, 15, 21, 6, 10, 15, 21, 6, 10, 15, 21]

/-- Decode a 64-byte chunk into sixteen little-endian 32-bit words. -/
def md5Words : List Nat → List Nat
  | b0 :: b1 :: b2 :: b3 :: rest =>
      (b0 + 256 * b1 + 65536 * b2 + 16777216 * b3) :: md5Words rest
  | _ => []

/-- One MD5 round: index `i`, message words `m`, state `(a, b, c, d)`. -/
def md5Round (m : List Nat) (st : Nat × Nat × Nat × Nat) (i : Nat) :
    Nat × Nat × Nat × Nat :=
  let (a, b, c, d) := st
  let (f, g) :=
    if i < 16 then (Nat.lor (Nat.land b c) (Nat.land (not32 b) d), i)
    else if i < 32 then (Nat.lor (Nat.land d b) (Nat.land (not32 d) c), (5 * i + 1) % 16)
    else if i < 48 then (Nat.xor (Nat.xor b c) d, (3 * i + 5) % 16)
    else (Nat.xor c (Nat.lor b (not32 d)), (7 * i) % 16)
  let f' := (f + a + md5K.getD i 0 + m.getD g 0) % 2 ^ 32
  (d, (b + rotl32 f' (md5S.getD i 0)) % 2 ^ 32, b, c)

/-- Process one 64-byte chunk. -/
def md5Chunk (st : Nat × Nat × Nat × Nat) (chunk : List Nat) :
    Nat × Nat × Nat × Nat :=
  let m := md5Words chunk
  let (a, b, c, d) := (List.range 64).foldl (md5Round m) st
  let (a0, b0, c0, d0) := st
  ((a0 + a) % 2 ^ 32, (b0 + b) % 2 ^ 32, (c0 + c) % 2 ^ 32, (d0 + d) % 2 ^ 32)

/-- Fold the compression function over the 64-byte chunks.  Structural
recursion on a fuel that starts at the input length; each step consumes 64
bytes of a non-empty input, so with that initial fuel the `0` branch is
never reached on padded input. -/
def md5Chunks : Nat → List Nat → Nat × Nat × Nat × Nat → Nat × Nat × Nat × Nat
  | _, [], st => st
  | 0, _, st => st
  | fuel + 1, l, st => md5Chunks fuel (l.drop 64) (md5Chunk st (l.take 64))

/-- MD5 padding: a `0x80` byte, zeros to 56 mod 64, then the original bit
length as a 64-bit little-endian integer. -/
def md5Pad (msg : List Nat) : List Nat :=
  let len := msg.length
  let padZeros := (55 + 64 - len % 64) % 64
  let bitLen := (8 * len) % 2 ^ 64
  msg ++ 0x80 :: List.replicate padZeros 0 ++
    (List.range 8).map (fun i => bitLen / 2 ^ (8 * i) % 256)

/-- Serialize a 32-bit word to four little-endian bytes. -/
def wordBytes (x : Nat) : List Nat :=
  [x % 256, x / 256 % 256, x / 65536 % 256, x / 16777216 % 256]

/-- The 16-byte MD5 digest of a byte list. -/
def md5 (msg : List Nat) : List Nat :=
  let padded := md5Pad msg
  let st :=
    md5Chunks padded.length padded (0x67452301, 0xefcdab89, 0x98badcfe, 0x10325476)
  wordBytes st.1 ++ wordBytes st.2.1 ++ wordBytes st.2.2.1 ++ wordBytes st.2.2.2

/-! ### UTF-8, hex digests, and the document id -/

/-- UTF-8 encoding of one code point (Python `str.encode('utf-8')` encodes
each code point of the string in order). -/
def utf8EncodeCodepoint (n : Nat) : List Nat :=
  if n < 0x80 then [n]
  else if n < 0x800 then [0xc0 + n / 64, 0x80 + n % 64]
  else if n < 0x10000 then [0xe0 + n / 4096, 0x80 + n / 64 % 64, 0x80 + n % 64]
  else [0xf0 + n / 262144, 0x80 + n / 4096 % 64, 0x80 + n / 64 % 64, 0x80 + n % 64]

/-- UTF-8 bytes of a string. -/
def utf8Encode (s : String) : List Nat :=
  s.data.flatMap (fun c => utf8EncodeCodepoint c.toNat)

/-- Lowercase hex digit for a value below 16. -/
def hexDigitChar (n : Nat) : Char :=
  if n < 10 then Char.ofNat ('0'.toNat + n) else Char.ofNat ('a'.toNat + n - 10)

/-- Python `md5(...).hexdigest()`: each digest byte as two lowercase hex
digits, in digest order. -/
def hexdigest (bytes : List Nat) : List Char :=
  bytes.flatMap (fun b => [hexDigitChar (b / 16), hexDigitChar (b % 16)])

/-- Value of a lowercase hex digit. -/
def hexDigitVal (c : Char) : Nat :=
  if c.toNat ≥ 'a'.toNat then c.toNat - 'a'.toNat + 10 else c.toNat - '0'.toNat

/-- Python `int(hexstring, 16)`. -/
def hexToNat (cs : List Char) : Nat :=
  cs.foldl (fun acc c => 16 * acc + hexDigitVal c) 0

/-- A byte list read as a big-endian unsigned integer (the value
`int(hexdigest, 16)` denotes, since the hex digest lists bytes in order,
most significant digit pair first). -/
def bytesToNatBE (bytes : List Nat) : Nat :=
  bytes.foldl (fun acc b => 256 * acc + b) 0

/-- Source `get_doc_id`: concatenate `event_time`, `cluster_id` and
`message` (strings, else Python raises: `none`), MD5 the UTF-8 bytes, parse
the lowercase hex digest in base 16 and render in base 10. -/
def get_doc_id (event_json : Dict) : Option String :=
  match dictLookup event_json "event_time", dictLookup event_json "cluster_id",
      dictLookup event_json "message" with
  | some (.str t), some (.str c), some (.str m) =>
      let id_str := t ++ c ++ m
      some (Nat.repr (hexToNat (hexdigest (md5 (utf8Encode id_str)))))
  | _, _, _ => none

/-- Modelled from the spec (section 4.3 Document Identifier): the digest of
the concatenated triple, interpreted as a (big-endian) 128-bit unsigned
integer and rendered base 10. -/
def deriveId_spec (event_time cluster_id message : String) : String :=
  Nat.repr (bytesToNatBE (md5 (utf8Encode (event_time ++ cluster_id ++ message))))

/-! ### Constants of the module -/

def RETRY_INTERVAL : Nat := 60 * 5

def MAX_EVENTS : Nat := 1000

def INDEX : String := "assisted-service-events"

/-! ### The indexer and the per-cluster pipeline

The elasticsearch client is a parameter: a `store` function giving, for an
`(index, id, body)` create call, one of the three outcomes the source
distinguishes.  The collaborators `process.is_event_skippable` and
`process.GetProcessedMetadataJson(...).get_processed_json()` (imported from
the external `monitoring` module) are parameters `skippable` and
`processMetadata`. -/

/-- Outcome of one `es.create` call. -/
inductive ESResp where
  | ok
  | conflict
  | err

/-- Python exceptions the embedded pipeline can raise. -/
inductive PyErr where
  | keyError
  | esError
deriving DecidableEq

/-- Source `ScrapeEvents.log_doc`: a conflict (`document id already
exists`) is swallowed and surfaces as `none` (Python `None`); a successful
create returns the response (truthy); any other client error propagates. -/
def log_doc (store : String → String → Dict → ESResp) (index : String)
    (doc : Dict) (id_ : String) : Except PyErr (Option Unit) :=
  match store index id_ doc with
  | .ok => .ok (some ())
  | .conflict => .ok none
  | .err => .error .esError

/-- One document the loop handed to the store: the event it came from, the
derived id, and the composite document body. -/
structure Attempt where
  event : Dict
  docId : String
  doc : Dict

/-- The event loop of `ScrapeEvents.elastefy_events`, iterating the
(already reversed) event list while mutating `cluster_bash_data` in place:
skippable events are passed over, the scrubbed message is assigned into the
dict, the event is merged over it, the result is sent to the store, and a
falsy indexing result (`None`, after a conflict) breaks the loop. -/
def elastefyLoop (skippable : Dict → Bool) (store : String → String → Dict → ESResp)
    (event_names : List String) :
    List Dict → Dict → Except PyErr (List Attempt)
  | [], _ => .ok []
  | event :: rest, cluster_bash_data =>
      if skippable event then
        elastefyLoop skippable store event_names rest cluster_bash_data
      else
        match get_doc_id event with
        | none => .error .keyError
        | some doc_id =>
            match dictLookup event "message" with
            | some (.str msg) =>
                let cbd' := dictUpdate
                  (dictInsert cluster_bash_data "no_name_message"
                    (.str (get_no_name_message msg event_names))) event
                match log_doc store INDEX cbd' doc_id with
                | .error er => .error er
                | .ok none => .ok [⟨event, doc_id, cbd'⟩]
                | .ok (some _) =>
                    (elastefyLoop skippable store event_names rest cbd').map
                      (fun l => ⟨event, doc_id, cbd'⟩ :: l)
            | _ => .error .keyError

/-- Source `ScrapeEvents.get_metadata_json`: `{'cluster': cluster}` updated
with the service versions. -/
def get_metadata_json (getVersions : Dict) (cluster : Dict) : Dict :=
  dictUpdate [("cluster", .obj cluster)] getVersions

/-- Source `ScrapeEvents.save_new_backup`, as the file writes it performs:
`events.json` and `metadata.json` under
`backup_destination/cluster_<cluster_id>/` (`os.path.join` concatenates
with a separator). -/
def save_new_backup (backup_destination cluster_id : String)
    (event_list : List Dict) (metadata_json : Dict) : List (String × Value) :=
  let dir := backup_destination ++ "/cluster_" ++ cluster_id
  [(dir ++ "/events.json", .arr (event_list.map .obj)),
   (dir ++ "/metadata.json", .obj metadata_json)]

/-- A filesystem as a mapping from paths to written JSON contents; a write
replaces whatever was at the path. -/
def applyWrites (fs : Dict) (writes : List (String × Value)) : Dict :=
  writes.foldl (fun acc w => dictInsert acc w.1 w.2) fs

/-- What a run of `elastefy_events` did, besides raising or not. -/
structure ElastefyResult where
  truncMsg : Option String
  backupWrites : Option (List (String × Value))
  kept : List Dict
  attempts : List Attempt

/-- Source `ScrapeEvents.elastefy_events`: truncate the fetched list to
`MAX_EVENTS` (logging when it does), build the metadata document, back it
up when a destination is configured, derive the name list, and run the
indexing loop over the kept events newest-first. -/
def elastefy_events (skippable : Dict → Bool) (processMetadata : Dict → Dict)
    (getVersions : Dict) (store : String → String → Dict → ESResp)
    (backup_destination : Option String) (cluster : Dict)
    (event_list : List Dict) : Except PyErr ElastefyResult :=
  match dictLookup cluster "id" with
  | some (.str cluster_id) =>
      let event_count := event_list.length
      let truncMsg :=
        if event_count > MAX_EVENTS then
          some ("Cluster " ++ cluster_id ++ " has " ++ Nat.repr event_count ++
            " event records, logging only " ++ Nat.repr MAX_EVENTS)
        else none
      let kept :=
        if event_count > MAX_EVENTS then event_list.take MAX_EVENTS else event_list
      let metadata_json := get_metadata_json getVersions cluster
      let backupWrites := backup_destination.map
        (fun dest => save_new_backup dest cluster_id kept metadata_json)
      let cluster_bash_data := processMetadata metadata_json
      match get_cluster_object_names cluster_bash_data with
      | none => .error .keyError
      | some event_names =>
          (elastefyLoop skippable store event_names kept.reverse cluster_bash_data).map
            (fun atts => ⟨truncMsg, backupWrites, kept, atts⟩)
  | _ => .error .keyError

/-! ### run_service -/

/-- Observable steps of `ScrapeEvents.run_service`. -/
inductive Action where
  | warnNoClusters
  | sleep (seconds : Nat)
  | process (i count : Nat) (cluster : Dict)

/-- Source `ScrapeEvents.run_service` as a trace over successive
`get_clusters` results: shuffle (a parameter, as `random.shuffle` is
impure), and on an empty result warn, sleep the retry interval and `break`
out of the `while True` loop; otherwise process each cluster in shuffled
order and poll again. -/
def run_service (shuffle : List Dict → List Dict) :
    List (List Dict) → List Action
  | [] => []
  | fetch :: later =>
      let clusters := shuffle fetch
      if clusters.isEmpty then [.warnNoClusters, .sleep RETRY_INTERVAL]
      else
        (clusters.enum.map fun p => Action.process p.1 clusters.length p.2) ++
          run_service shuffle later

/-! ### Predicates used to state the claims -/

/-- An event whose three identifying fields are present strings. -/
def eventWF (e : Dict) : Bool :=
  (match dictLookup e "event_time" with | some (.str _) => true | _ => false) &&
  (match dictLookup e "cluster_id" with | some (.str _) => true | _ => false) &&
  (match dictLookup e "message" with | some (.str _) => true | _ => false)

/-- A host entry within the model: a dict whose `requested_hostname`, when
present, is a string or `None`. -/
def hostWF : Value → Bool
  | .obj h =>
      match dictLookup h "requested_hostname" with
      | none => true
      | some (.str _) => true
      | some .null => true
      | some _ => false
  | _ => false

/-- The name a host contributes: its `requested_hostname` when that value
is a truthy (non-empty) string. -/
def hostNameOf : Value → Option String
  | .obj h =>
      match dictLookup h "requested_hostname" with
      | some (.str s) => if s = "" then none else some s
      | _ => none
  | _ => none

/-- The in-place mutation discipline of the event loop: each logged
document is the previous logged document (initially the processed metadata
dict) with the scrubbed message assigned and the event merged over it. -/
def attemptChain (event_names : List String) : Dict → List Attempt → Prop
  | _, [] => True
  | prev, a :: rest =>
      (∃ msg, dictLookup a.event "message" = some (.str msg) ∧
        a.doc = dictUpdate
          (dictInsert prev "no_name_message"
            (.str (get_no_name_message msg event_names))) a.event) ∧
      attemptChain event_names a.doc rest

/-- An optional single hyphen, as the regex `-?` accepts. -/
def OptHyphen (s : List Char) : Prop := s = [] ∨ s = ['-']

/-- Declarative reading of `UUID_REGEX`, following the spec: five hex-digit
groups of sizes 8-4-4-4-12, hyphens between groups optional, the version
nibble fixed to `4` and the variant nibble in `{8, 9, a, b}`. -/
def IsUUIDMatch (l : List Char) : Prop :=
  ∃ (g1 g2 g3 g4 g5 s1 s2 s3 s4 : List Char) (v : Char),
    l = g1 ++ s1 ++ g2 ++ s2 ++ '4' :: (g3 ++ s3 ++ v :: (g4 ++ s4 ++ g5)) ∧
    g1.length = 8 ∧ g2.length = 4 ∧ g3.length = 3 ∧ g4.length = 3 ∧
    g5.length = 12 ∧
    (∀ c ∈ g1, isHexLower c) ∧ (∀ c ∈ g2, isHexLower c) ∧
    (∀ c ∈ g3, isHexLower c) ∧ (∀ c ∈ g4, isHexLower c) ∧
    (∀ c ∈ g5, isHexLower c) ∧
    OptHyphen s1 ∧ OptHyphen s2 ∧ OptHyphen s3 ∧ OptHyphen s4 ∧
    isVariantChar v

/-! ## Lemmas

Definitions end here; everything below is a theorem about them. -/

/-! ### Dictionary lemmas -/

theorem dictLookup_dictInsert_self (d : Dict) (k : String) (v : Value) :
    dictLookup (dictInsert d k v) k = some v := by
  induction d with
  | nil => simp [dictInsert, dictLookup]
  | cons hd tl ih =>
      obtain ⟨k', v'⟩ := hd
      by_cases h : k' = k <;> simp [dictInsert, dictLookup, h, ih]

theorem dictLookup_dictInsert_other (d : Dict) (k k₀ : String) (v : Value)
    (hne : k ≠ k₀) : dictLookup (dictInsert d k v) k₀ = dictLookup d k₀ := by
  induction d with
  | nil => simp [dictInsert, dictLookup, hne]
  | cons hd tl ih =>
      obtain ⟨k', v'⟩ := hd
      by_cases h : k' = k
      · subst h; simp [dictInsert, dictLookup, hne]
      · by_cases h0 : k' = k₀ <;>
          simp [dictInsert, dictLookup, h, h0, ih, Ne.symm hne]

/-- Updating `d` by an `e` with `k` absent leaves `d`'s binding of `k` alone. -/
theorem dictLookup_dictUpdate_not_mem (d e : Dict) (k : String)
    (hk : k ∉ dictKeys e) :
    dictLookup (dictUpdate d e) k = dictLookup d k := by
  induction e generalizing d with
  | nil => rfl
  | cons hd tl ih =>
      obtain ⟨k', v'⟩ := hd
      have hk' : k' ≠ k := by
        intro h; exact hk (by simp [dictKeys, h])
      have htl : k ∉ dictKeys tl := by
        intro h; exact hk (by simp [dictKeys] at h ⊢; right; exact h)
      have step : dictUpdate d ((k', v') :: tl) = dictUpdate (dictInsert d k' v') tl := rfl
      rw [step, ih _ htl, dictLookup_dictInsert_other d k' k v' hk']

/-- Updating `d` by an `e` that binds `k` (keys of `e` distinct, as in any
Python dict) makes `e`'s binding win. -/
theorem dictLookup_dictUpdate_mem (d e : Dict) (k : String) (v : Value)
    (hnd : (dictKeys e).Nodup) (hv : dictLookup e k = some v) :
    dictLookup (dictUpdate d e) k = some v := by
  induction e generalizing d with
  | nil => simp [dictLookup] at hv
  | cons hd tl ih =>
      obtain ⟨k', v'⟩ := hd
      have hnd' : (dictKeys tl).Nodup ∧ k' ∉ dictKeys tl := by
        simpa [dictKeys, and_comm] using hnd
      have step : dictUpdate d ((k', v') :: tl) = dictUpdate (dictInsert d k' v') tl := rfl
      by_cases h : k' = k
      · subst h
        have hv' : v' = v := by simpa [dictLookup] using hv
        subst hv'
        rw [step, dictLookup_dictUpdate_not_mem _ _ _ hnd'.2,
          dictLookup_dictInsert_self]
      · have hv' : dictLookup tl k = some v := by simpa [dictLookup, h] using hv
        rw [step, ih _ hnd'.1 hv']

/-! ### Scanner lemmas -/

theorem expectHex_length {n : Nat} {s r : List Char}
    (h : expectHex n s = some r) : r.length + n = s.length := by
  induction n generalizing s with
  | zero => simp [expectHex] at h; simp [h]
  | succ n ih =>
      match s with
      | [] => simp [expectHex] at h
      | c :: rest =>
          by_cases hc : isHexLower c
          · have := ih (by simpa [expectHex, hc] using h)
            simp only [List.length_cons]
            omega
          · simp [expectHex, hc] at h

theorem expectChar_length {c : Char} {s r : List Char}
    (h : expectChar c s = some r) : r.length + 1 = s.length := by
  match s with
  | [] => simp [expectChar] at h
  | d :: rest =>
      by_cases hd : d = c
      · have : rest = r := by simpa [expectChar, hd] using h
        simp [← this]
      · simp [expectChar, hd] at h

theorem expectVariant_length {s r : List Char}
    (h : expectVariant s = some r) : r.length + 1 = s.length := by
  match s with
  | [] => simp [expectVariant] at h
  | d :: rest =>
      by_cases hd : isVariantChar d
      · have : rest = r := by simpa [expectVariant, hd] using h
        simp [← this]
      · simp [expectVariant, hd] at h

theorem skipHyphen_length (s : List Char) :
    (skipHyphen s).length ≤ s.length := by
  match s with
  | [] => simp [skipHyphen]
  | c :: rest =>
      by_cases h : c = '-' <;> simp [skipHyphen, h]

/-- A successful UUID match consumes at least one character (in fact at
least 32). -/
theorem matchUUID_length {s r : List Char} (h : matchUUID s = some r) :
    r.length < s.length := by
  unfold matchUUID at h
  obtain ⟨s1, h1, h⟩ := Option.bind_eq_some.mp h
  obtain ⟨s2, h2, h⟩ := Option.bind_eq_some.mp h
  obtain ⟨s3, h3, h⟩ := Option.bind_eq_some.mp h
  obtain ⟨s4, h4, h⟩ := Option.bind_eq_some.mp h
  obtain ⟨s5, h5, h⟩ := Option.bind_eq_some.mp h
  obtain ⟨s6, h6, h⟩ := Option.bind_eq_some.mp h
  have l1 := expectHex_length h1
  have l2 := expectHex_length h2
  have l3 := expectChar_length h3
  have l4 := expectHex_length h4
  have l5 := expectVariant_length h5
  have l6 := expectHex_length h6
  have l7 := expectHex_length h
  have k1 := skipHyphen_length s1
  have k2 := skipHyphen_length s2
  have k4 := skipHyphen_length s4
  have k6 := skipHyphen_length s6
  omega

/-! ### Digest lemmas -/

theorem hexDigitVal_hexDigitChar : ∀ n < 16, hexDigitVal (hexDigitChar n) = n := by
  decide

theorem wordBytes_lt (x : Nat) : ∀ b ∈ wordBytes x, b < 256 := by
  simp only [wordBytes, List.mem_cons, List.not_mem_nil, or_false]
  rintro b (rfl | rfl | rfl | rfl) <;> omega

theorem md5_bytes_lt (msg : List Nat) : ∀ b ∈ md5 msg, b < 256 := by
  intro b hb
  simp only [md5, List.mem_append] at hb
  rcases hb with ((h | h) | h) | h <;> exact wordBytes_lt _ _ h

theorem md5_length (msg : List Nat) : (md5 msg).length = 16 := by
  simp [md5, wordBytes]

/-- Parsing the lowercase hex digest in base 16 recovers the digest bytes
read as a big-endian integer. -/
theorem hexToNat_hexdigest (bs : List Nat) (h : ∀ b ∈ bs, b < 256) :
    hexToNat (hexdigest bs) = bytesToNatBE bs := by
  suffices haux : ∀ acc,
      List.foldl (fun a c => 16 * a + hexDigitVal c) acc (hexdigest bs) =
        List.foldl (fun a b => 256 * a + b) acc bs from haux 0
  induction bs with
  | nil => intro acc; rfl
  | cons b tl ih =>
      intro acc
      have hb : b < 256 := h b (by simp)
      have htl : ∀ x ∈ tl, x < 256 := fun x hx => h x (by simp [hx])
      have hhi : hexDigitVal (hexDigitChar (b / 16)) = b / 16 :=
        hexDigitVal_hexDigitChar _ (by omega)
      have hlo : hexDigitVal (hexDigitChar (b % 16)) = b % 16 :=
        hexDigitVal_hexDigitChar _ (by omega)
      have hstep : hexdigest (b :: tl) =
          hexDigitChar (b / 16) :: hexDigitChar (b % 16) :: hexdigest tl := by
        simp [hexdigest]
      rw [hstep]
      simp only [List.foldl_cons]
      rw [hhi, hlo, ih htl]
      have : 16 * (16 * acc + b / 16) + b % 16 = 256 * acc + b := by omega
      rw [this]

theorem bytesToNatBE_lt (bs : List Nat) (h : ∀ b ∈ bs, b < 256) :
    bytesToNatBE bs < 256 ^ bs.length := by
  suffices haux : ∀ acc,
      List.foldl (fun a b => 256 * a + b) acc bs < (acc + 1) * 256 ^ bs.length by
    have := haux 0
    simpa using this
  induction bs with
  | nil => intro acc; simp
  | cons b tl ih =>
      intro acc
      have hb : b < 256 := h b (by simp)
      have htl : ∀ x ∈ tl, x < 256 := fun x hx => h x (by simp [hx])
      simp only [List.foldl_cons, List.length_cons]
      calc List.foldl (fun a b => 256 * a + b) (256 * acc + b) tl
          < (256 * acc + b + 1) * 256 ^ tl.length := ih htl _
        _ ≤ (acc + 1) * 256 ^ (tl.length + 1) := by
            have h1 : 256 * acc + b + 1 ≤ 256 * (acc + 1) := by omega
            have h2 : 256 ^ (tl.length + 1) = 256 ^ tl.length * 256 := pow_succ 256 tl.length
            calc (256 * acc + b + 1) * 256 ^ tl.length
                ≤ 256 * (acc + 1) * 256 ^ tl.length :=
                  Nat.mul_le_mul_right _ h1
              _ = (acc + 1) * 256 ^ (tl.length + 1) := by rw [h2]; ring

/-! ## Claim theorems -/

/-- C1: for every event with string fields `event_time`, `cluster_id` and
`message`, `get_doc_id` returns the base-10 decimal string of the 128-bit
MD5 digest of the UTF-8 bytes of the separator-free concatenation
`event_time ++ cluster_id ++ message` (the digest read as a big-endian
unsigned integer, which is what parsing the hex digest in base 16 yields),
and it is a pure function of that triple: any event with the same three
fields gets the identical id string. -/
theorem get_doc_id_correct (e : Dict) (t c m : String)
    (ht : dictLookup e "event_time" = some (.str t))
    (hc : dictLookup e "cluster_id" = some (.str c))
    (hm : dictLookup e "message" = some (.str m)) :
    get_doc_id e = some (deriveId_spec t c m) ∧
    bytesToNatBE (md5 (utf8Encode (t ++ c ++ m))) < 2 ^ 128 ∧
    (∀ e' : Dict, dictLookup e' "event_time" = some (.str t) →
      dictLookup e' "cluster_id" = some (.str c) →
      dictLookup e' "message" = some (.str m) →
      get_doc_id e' = get_doc_id e) := by
  refine ⟨?_, ?_, ?_⟩
  · simp only [get_doc_id, ht, hc, hm, deriveId_spec]
    rw [hexToNat_hexdigest _ (md5_bytes_lt _)]
  · have hlt := bytesToNatBE_lt _ (md5_bytes_lt (utf8Encode (t ++ c ++ m)))
    rw [md5_length] at hlt
    calc bytesToNatBE (md5 (utf8Encode (t ++ c ++ m)))
        < 256 ^ 16 := hlt
      _ = 2 ^ 128 := by norm_num
  · intro e' ht' hc' hm'
    simp only [get_doc_id, ht, hc, hm, ht', hc', hm']

set_option maxRecDepth 100000 in
/-- Concrete instance of C1: the id of the event
`{event_time: "2021", cluster_id: "cid", message: "msg"}` is the decimal
rendering of `md5("2021cidmsg")`, matching CPython's
`str(int(hashlib.md5(b"2021cidmsg").hexdigest(), 16))`. -/
theorem get_doc_id_correct_witness :
    get_doc_id
        [("event_time", .str "2021"), ("cluster_id", .str "cid"),
          ("message", .str "msg")] =
      some "11150300004717501922208819138011197831" := by
  have h := get_doc_id_correct
    [("event_time", .str "2021"), ("cluster_id", .str "cid"),
      ("message", .str "msg")] "2021" "cid" "msg" rfl rfl rfl
  rw [h.1]
  rfl

/-- C4 counterexample: the claim's expected output is wrong on the code.
`re.sub(r"^Host \S+:", "", ...)` removes only the matched prefix, which
ends at the colon, so the space after the colon survives: the result is
`" something failed for Name"`, not `"something failed for Name"`. -/
theorem get_no_name_message_host_example_ne :
    get_no_name_message "Host abc123: something failed for node-1" ["node-1"] ≠
      "something failed for Name" := by
  decide

/-- C4 (amended): for the message `"Host abc123: something failed for
node-1"` and names `["node-1"]`, the scrub returns
`" something failed for Name"` — the name is replaced by `"Name"` and the
leading `"Host abc123:"` prefix is removed entirely (not replaced), which
leaves the space that followed the colon at the front. -/
theorem get_no_name_message_host_example :
    get_no_name_message "Host abc123: something failed for node-1" ["node-1"] =
      " something failed for Name" := by
  decide

/-- C8: whenever a fetch yields an empty cluster list, `run_service` warns,
sleeps the fixed retry interval, and exits the polling loop: the trace of
that cycle is exactly `[warnNoClusters, sleep RETRY_INTERVAL]`, no cluster
is processed in it, and later fetch results are never consumed — whereas a
non-empty fetch is processed and polling continues.  `shuffle` models
`random.shuffle` and may be any permutation. -/
theorem run_service_empty_fetch (shuffle : List Dict → List Dict)
    (hperm : ∀ l, (shuffle l).Perm l) :
    (∀ later, run_service shuffle ([] :: later) =
      [.warnNoClusters, .sleep RETRY_INTERVAL]) ∧
    (∀ later (a : Action), a ∈ run_service shuffle ([] :: later) →
      ∀ i n c, a ≠ .process i n c) ∧
    (∀ fetch later, fetch ≠ [] →
      run_service shuffle (fetch :: later) =
        ((shuffle fetch).enum.map fun p =>
          Action.process p.1 (shuffle fetch).length p.2) ++
          run_service shuffle later) := by
  have hnil : shuffle [] = [] := (hperm []).eq_nil
  refine ⟨?_, ?_, ?_⟩
  · intro later
    simp [run_service, hnil]
  · intro later a ha i n c
    have h1 : run_service shuffle ([] :: later) =
        [.warnNoClusters, .sleep RETRY_INTERVAL] := by
      simp [run_service, hnil]
    rw [h1] at ha
    simp only [List.mem_cons, List.not_mem_nil, or_false] at ha
    rcases ha with rfl | rfl <;> simp
  · intro fetch later hne
    have hsh : shuffle fetch ≠ [] := by
      intro h
      have hp := hperm fetch
      rw [h] at hp
      exact hne hp.symm.eq_nil
    simp [run_service, List.isEmpty_iff, hsh]

/-- Concrete instance of C8: with the identity shuffle, an empty first
fetch produces only the warning and the sleep, regardless of a later
pending non-empty fetch. -/
theorem run_service_empty_fetch_witness :
    run_service id [[], [[("id", Value.str "c")]]] =
      [.warnNoClusters, .sleep RETRY_INTERVAL] :=
  (run_service_empty_fetch id (fun l => List.Perm.refl l)).1
    [[[("id", Value.str "c")]]]

/-- C2: a store conflict (document id already exists) during `log_doc` is
not propagated as an error — `log_doc` returns the no-success marker
`none` — and the event loop of `elastefy_events` then stops: whatever the
remaining (older) events are, the loop returns having attempted only the
conflicting document.  Any other store error propagates as a failure. -/
theorem log_doc_conflict_stops :
    (∀ (store : String → String → Dict → ESResp) index doc id_,
      store index id_ doc = .conflict →
      log_doc store index doc id_ = .ok none) ∧
    (∀ (store : String → String → Dict → ESResp) index doc id_,
      store index id_ doc = .err →
      log_doc store index doc id_ = .error .esError) ∧
    (∀ skippable (store : String → String → Dict → ESResp)
        event_names event rest cluster_bash_data doc_id msg,
      skippable event = false →
      get_doc_id event = some doc_id →
      dictLookup event "message" = some (.str msg) →
      store INDEX doc_id
          (dictUpdate (dictInsert cluster_bash_data "no_name_message"
            (.str (get_no_name_message msg event_names))) event) = .conflict →
      elastefyLoop skippable store event_names (event :: rest) cluster_bash_data =
        .ok [⟨event, doc_id,
          dictUpdate (dictInsert cluster_bash_data "no_name_message"
            (.str (get_no_name_message msg event_names))) event⟩]) := by
  refine ⟨?_, ?_, ?_⟩
  · intro store index doc id_ h
    simp [log_doc, h]
  · intro store index doc id_ h
    simp [log_doc, h]
  · intro skippable store event_names event rest cluster_bash_data doc_id msg
      hskip hid hmsg hstore
    simp [elastefyLoop, hskip, hid, hmsg, log_doc, hstore]

set_option maxRecDepth 100000 in
/-- Concrete instance of C2: with a store that always reports a conflict,
a two-event cluster cycle attempts only the first (newest) event and stops;
a store that always errors makes `log_doc` fail. -/
theorem log_doc_conflict_stops_witness :
    log_doc (fun _ _ _ => ESResp.conflict) INDEX [] "x" = .ok none ∧
    log_doc (fun _ _ _ => ESResp.err) INDEX [] "x" = .error .esError ∧
    elastefyLoop (fun _ => false) (fun _ _ _ => ESResp.conflict) []
        [[("event_time", .str "t"), ("cluster_id", .str "c"), ("message", .str "m")],
          [("event_time", .str "t"), ("cluster_id", .str "c"), ("message", .str "m")]]
        [] =
      .ok [⟨[("event_time", .str "t"), ("cluster_id", .str "c"), ("message", .str "m")],
        "212705697205201698770531071132377530695",
        [("no_name_message", .str "m"), ("event_time", .str "t"),
          ("cluster_id", .str "c"), ("message", .str "m")]⟩] := by
  refine ⟨log_doc_conflict_stops.1 _ INDEX [] "x" rfl,
    log_doc_conflict_stops.2.1 _ INDEX [] "x" rfl, ?_⟩
  have h := log_doc_conflict_stops.2.2 (fun _ => false)
    (fun _ _ _ => ESResp.conflict) []
    [("event_time", .str "t"), ("cluster_id", .str "c"), ("message", .str "m")]
    [[("event_time", .str "t"), ("cluster_id", .str "c"), ("message", .str "m")]]
    [] "212705697205201698770531071132377530695" "m" rfl (by rfl) rfl rfl
  exact h

/-! ### Event loop lemmas -/

theorem eventWF_fields {e : Dict} (h : eventWF e = true) :
    ∃ t c m, dictLookup e "event_time" = some (.str t) ∧
      dictLookup e "cluster_id" = some (.str c) ∧
      dictLookup e "message" = some (.str m) := by
  simp only [eventWF, Bool.and_eq_true] at h
  obtain ⟨⟨h1, h2⟩, h3⟩ := h
  obtain ⟨t, ht⟩ : ∃ t, dictLookup e "event_time" = some (.str t) := by
    rcases hx : dictLookup e "event_time" with _ | v
    · rw [hx] at h1; simp at h1
    · cases v with
      | str s => exact ⟨s, rfl⟩
      | obj f => rw [hx] at h1; simp at h1
      | arr l => rw [hx] at h1; simp at h1
      | null => rw [hx] at h1; simp at h1
  obtain ⟨c, hc⟩ : ∃ c, dictLookup e "cluster_id" = some (.str c) := by
    rcases hx : dictLookup e "cluster_id" with _ | v
    · rw [hx] at h2; simp at h2
    · cases v with
      | str s => exact ⟨s, rfl⟩
      | obj f => rw [hx] at h2; simp at h2
      | arr l => rw [hx] at h2; simp at h2
      | null => rw [hx] at h2; simp at h2
  obtain ⟨m, hm⟩ : ∃ m, dictLookup e "message" = some (.str m) := by
    rcases hx : dictLookup e "message" with _ | v
    · rw [hx] at h3; simp at h3
    · cases v with
      | str s => exact ⟨s, rfl⟩
      | obj f => rw [hx] at h3; simp at h3
      | arr l => rw [hx] at h3; simp at h3
      | null => rw [hx] at h3; simp at h3
  exact ⟨t, c, m, ht, hc, hm⟩

/-- A loop in which no event is skippable and every store call succeeds
attempts one document per event. -/
theorem elastefyLoop_ok_length (store : String → String → Dict → ESResp)
    (hstore : ∀ i d b, store i d b = .ok) (event_names : List String) :
    ∀ (events : List Dict) (cbd : Dict), (∀ e ∈ events, eventWF e = true) →
      ∃ atts, elastefyLoop (fun _ => false) store event_names events cbd = .ok atts ∧
        atts.length = events.length := by
  intro events
  induction events with
  | nil => exact fun cbd _ => ⟨[], rfl, rfl⟩
  | cons e rest ih =>
      intro cbd hwf
      obtain ⟨t, c, m, ht, hc, hm⟩ := eventWF_fields (hwf e (by simp))
      obtain ⟨atts, hrun, hlen⟩ :=
        ih (dictUpdate (dictInsert cbd "no_name_message"
            (.str (get_no_name_message m event_names))) e)
          (fun x hx => hwf x (by simp [hx]))
      refine ⟨⟨e, Nat.repr (hexToNat (hexdigest (md5 (utf8Encode (t ++ c ++ m))))),
        dictUpdate (dictInsert cbd "no_name_message"
          (.str (get_no_name_message m event_names))) e⟩ :: atts, ?_, by simp [hlen]⟩
      simp [elastefyLoop, get_doc_id, ht, hc, hm, log_doc, hstore, hrun, Except.map]

/-- A loop that skips every event attempts nothing. -/
theorem elastefyLoop_skips (store : String → String → Dict → ESResp)
    (event_names : List String) :
    ∀ (events : List Dict) (cbd : Dict),
      elastefyLoop (fun _ => true) store event_names events cbd = .ok [] := by
  intro events
  induction events with
  | nil => exact fun _ => rfl
  | cons e rest ih => intro cbd; simp [elastefyLoop, ih]

/-- Every successful loop run obeys the in-place mutation discipline
`attemptChain`. -/
theorem elastefyLoop_chain (skippable : Dict → Bool)
    (store : String → String → Dict → ESResp) (event_names : List String) :
    ∀ (events : List Dict) (cbd : Dict) (atts : List Attempt),
      elastefyLoop skippable store event_names events cbd = .ok atts →
      attemptChain event_names cbd atts := by
  intro events
  induction events with
  | nil =>
      intro cbd atts h
      have : atts = [] := by simpa [elastefyLoop] using h.symm
      rw [this]; trivial
  | cons e rest ih =>
      intro cbd atts h
      by_cases hskip : skippable e
      · exact ih cbd atts (by simpa [elastefyLoop, hskip] using h)
      · rw [elastefyLoop] at h
        rw [if_neg hskip] at h
        rcases hid : get_doc_id e with _ | doc_id
        · rw [hid] at h; exact absurd h (by simp)
        · rw [hid] at h
          rcases hmv : dictLookup e "message" with _ | v
          · rw [hmv] at h; exact absurd h (by simp)
          · rw [hmv] at h
            cases v with
            | str msg =>
                rcases hst : store INDEX doc_id (dictUpdate
                    (dictInsert cbd "no_name_message"
                      (.str (get_no_name_message msg event_names))) e) with _ | _ | _
                · simp only [log_doc, hst] at h
                  rcases hrec : elastefyLoop skippable store event_names rest
                      (dictUpdate (dictInsert cbd "no_name_message"
                        (.str (get_no_name_message msg event_names))) e) with er | l
                  · rw [hrec] at h; exact absurd h (by simp [Except.map])
                  · rw [hrec] at h
                    simp only [Except.map] at h
                    obtain rfl : _ :: l = atts := by
                      exact Except.ok.inj h
                    exact ⟨⟨msg, hmv, rfl⟩, ih _ l hrec⟩
                · simp only [log_doc, hst] at h
                  obtain rfl : _ = atts := Except.ok.inj h
                  exact ⟨⟨msg, hmv, rfl⟩, trivial⟩
                · simp only [log_doc, hst] at h
                  exact absurd h (by simp)
            | obj f => simp at h
            | arr l => simp at h
            | null => simp at h

/-- Every attempted document has the composite shape for some base dict. -/
theorem attemptChain_mem {event_names : List String} :
    ∀ {cbd : Dict} {atts : List Attempt}, attemptChain event_names cbd atts →
      ∀ a ∈ atts, ∃ prev msg, dictLookup a.event "message" = some (.str msg) ∧
        a.doc = dictUpdate (dictInsert prev "no_name_message"
          (.str (get_no_name_message msg event_names))) a.event := by
  intro cbd atts
  induction atts generalizing cbd with
  | nil => intro _ a ha; simp at ha
  | cons b tl ih =>
      intro h a ha
      obtain ⟨⟨msg, hmsg, hdoc⟩, htl⟩ := h
      rcases List.mem_cons.mp ha with rfl | ha'
      · exact ⟨cbd, msg, hmsg, hdoc⟩
      · exact ih htl a ha'

/-- Consecutive attempted documents: the later one is built from the
earlier one. -/
theorem attemptChain_pairs {event_names : List String} :
    ∀ {cbd : Dict} {atts : List Attempt}, attemptChain event_names cbd atts →
      ∀ p ∈ atts.zip atts.tail,
        ∃ msg, dictLookup (p.2).event "message" = some (.str msg) ∧
          (p.2).doc = dictUpdate (dictInsert (p.1).doc "no_name_message"
            (.str (get_no_name_message msg event_names))) (p.2).event := by
  intro cbd atts
  induction atts generalizing cbd with
  | nil => intro _ p hp; simp at hp
  | cons a tl ih =>
      intro h p hp
      match tl, hp with
      | b :: tl2, hp =>
          rcases List.mem_cons.mp hp with rfl | hp'
          · obtain ⟨⟨msg, hmsg, hdoc⟩, _⟩ := h.2
            exact ⟨msg, hmsg, hdoc⟩
          · exact ih h.2 p hp'

/-- C9: in every successful cycle, each indexed document gives an event
field's key the event's value (the later merge of event fields wins over
the earlier metadata fields on collision), and — as long as the event does
not itself carry a `no_name_message` field — the document carries the
derived `no_name_message` scrub of the event's message. -/
theorem composite_document_fields (skippable : Dict → Bool)
    (store : String → String → Dict → ESResp) (event_names : List String)
    (events : List Dict) (cbd : Dict) (atts : List Attempt)
    (hrun : elastefyLoop skippable store event_names events cbd = .ok atts)
    (a : Attempt) (ha : a ∈ atts) (hnd : (dictKeys a.event).Nodup) :
    (∀ k v, dictLookup a.event k = some v → dictLookup a.doc k = some v) ∧
    ("no_name_message" ∉ dictKeys a.event →
      ∃ msg, dictLookup a.event "message" = some (.str msg) ∧
        dictLookup a.doc "no_name_message" =
          some (.str (get_no_name_message msg event_names))) := by
  obtain ⟨prev, msg, hmsg, hdoc⟩ :=
    attemptChain_mem (elastefyLoop_chain _ _ _ _ _ _ hrun) a ha
  constructor
  · intro k v hv
    rw [hdoc]
    exact dictLookup_dictUpdate_mem _ _ _ _ hnd hv
  · intro hnnm
    refine ⟨msg, hmsg, ?_⟩
    rw [hdoc, dictLookup_dictUpdate_not_mem _ _ _ hnnm, dictLookup_dictInsert_self]

set_option maxRecDepth 100000 in
/-- Concrete instance of C9: an event carrying a `cluster` key overrides
the metadata's `cluster` value in its indexed document, and the document
carries the scrubbed message under `no_name_message`. -/
theorem composite_document_fields_witness :
    dictLookup
        [("cluster", .str "event"), ("no_name_message", .str "m"),
          ("event_time", .str "t"), ("cluster_id", .str "c"), ("message", .str "m")]
        "cluster" = some (.str "event") ∧
    dictLookup
        [("cluster", .str "event"), ("no_name_message", .str "m"),
          ("event_time", .str "t"), ("cluster_id", .str "c"), ("message", .str "m")]
        "no_name_message" = some (.str "m") := by
  have h := composite_document_fields (fun _ => false) (fun _ _ _ => ESResp.ok) []
    [[("event_time", .str "t"), ("cluster_id", .str "c"), ("message", .str "m"),
      ("cluster", .str "event")]]
    [("cluster", .str "meta")]
    [⟨[("event_time", .str "t"), ("cluster_id", .str "c"), ("message", .str "m"),
        ("cluster", .str "event")],
      "212705697205201698770531071132377530695",
      [("cluster", .str "event"), ("no_name_message", .str "m"),
        ("event_time", .str "t"), ("cluster_id", .str "c"), ("message", .str "m")]⟩]
    (by rfl)
    ⟨[("event_time", .str "t"), ("cluster_id", .str "c"), ("message", .str "m"),
        ("cluster", .str "event")],
      "212705697205201698770531071132377530695",
      [("cluster", .str "event"), ("no_name_message", .str "m"),
        ("event_time", .str "t"), ("cluster_id", .str "c"), ("message", .str "m")]⟩
    (by simp) (by decide)
  refine ⟨h.1 "cluster" (.str "event") rfl, ?_⟩
  obtain ⟨msg, hmsg, hl⟩ := h.2 (by decide)
  have hm : Value.str msg = Value.str "m" :=
    Option.some.inj ((rfl :
      dictLookup [("event_time", .str "t"), ("cluster_id", .str "c"),
        ("message", .str "m"), ("cluster", .str "event")] "message" =
        some (.str "m")).symm.trans hmsg).symm
  rw [Value.str.inj hm] at hl
  exact hl

/-- C10: within a cluster cycle the loop reuses and mutates one base
document: each attempted document is the previous attempt's document with
the new scrub assigned and the new event merged over it (`attemptChain`,
whose base case ties the first document to the metadata dict), so a key
bound in an earlier attempted document and absent from the next event — and
different from the always-reassigned `no_name_message` — survives into the
next document with its stale value. -/
theorem in_place_document_reuse (skippable : Dict → Bool)
    (store : String → String → Dict → ESResp) (event_names : List String)
    (events : List Dict) (cbd : Dict) (atts : List Attempt)
    (hrun : elastefyLoop skippable store event_names events cbd = .ok atts) :
    attemptChain event_names cbd atts ∧
    (∀ p ∈ atts.zip atts.tail, ∀ k v,
      k ∉ dictKeys (p.2).event → k ≠ "no_name_message" →
      dictLookup (p.1).doc k = some v → dictLookup (p.2).doc k = some v) := by
  have hchain := elastefyLoop_chain _ _ _ _ _ _ hrun
  refine ⟨hchain, ?_⟩
  intro p hp k v hk hknnm hv
  obtain ⟨msg, hmsg, hdoc⟩ := attemptChain_pairs hchain p hp
  rw [hdoc, dictLookup_dictUpdate_not_mem _ _ _ hk,
    dictLookup_dictInsert_other _ _ _ _ (Ne.symm hknnm)]
  exact hv

set_option maxRecDepth 100000 in
/-- Concrete instance of C10: the first processed event sets `extra`, the
second has no `extra` field, yet the second event's indexed document still
carries the stale `extra` value — it is not just metadata plus the second
event's own fields. -/
theorem in_place_document_reuse_witness :
    dictLookup
        [("no_name_message", .str "m"), ("event_time", .str "t2"),
          ("cluster_id", .str "c"), ("message", .str "m"), ("extra", .str "X")]
        "extra" = some (.str "X") ∧
    dictLookup
        [("event_time", .str "t2"), ("cluster_id", .str "c"), ("message", .str "m")]
        "extra" = none := by
  have h := in_place_document_reuse (fun _ => false) (fun _ _ _ => ESResp.ok) []
    [[("event_time", .str "t1"), ("cluster_id", .str "c"), ("message", .str "m"),
      ("extra", .str "X")],
     [("event_time", .str "t2"), ("cluster_id", .str "c"), ("message", .str "m")]]
    []
    [⟨[("event_time", .str "t1"), ("cluster_id", .str "c"), ("message", .str "m"),
        ("extra", .str "X")],
      "8496337120562084180671987639801507235",
      [("no_name_message", .str "m"), ("event_time", .str "t1"),
        ("cluster_id", .str "c"), ("message", .str "m"), ("extra", .str "X")]⟩,
     ⟨[("event_time", .str "t2"), ("cluster_id", .str "c"), ("message", .str "m")],
      "158278065704202639369167714004831414922",
      [("no_name_message", .str "m"), ("event_time", .str "t2"),
        ("cluster_id", .str "c"), ("message", .str "m"), ("extra", .str "X")]⟩]
    (by rfl)
  refine ⟨?_, rfl⟩
  exact h.2
    (⟨[("event_time", .str "t1"), ("cluster_id", .str "c"), ("message", .str "m"),
        ("extra", .str "X")],
      "8496337120562084180671987639801507235",
      [("no_name_message", .str "m"), ("event_time", .str "t1"),
        ("cluster_id", .str "c"), ("message", .str "m"), ("extra", .str "X")]⟩,
     ⟨[("event_time", .str "t2"), ("cluster_id", .str "c"), ("message", .str "m")],
      "158278065704202639369167714004831414922",
      [("no_name_message", .str "m"), ("event_time", .str "t2"),
        ("cluster_id", .str "c"), ("message", .str "m"), ("extra", .str "X")]⟩)
    (by simp) "extra" (.str "X") (by decide) (by decide) rfl

theorem applyWrites_two (fs : Dict) (p1 p2 : String) (c1 c2 : Value)
    (hne : p1 ≠ p2) :
    dictLookup (applyWrites fs [(p1, c1), (p2, c2)]) p1 = some c1 ∧
    dictLookup (applyWrites fs [(p1, c1), (p2, c2)]) p2 = some c2 := by
  have hw : applyWrites fs [(p1, c1), (p2, c2)] =
      dictInsert (dictInsert fs p1 c1) p2 c2 := rfl
  constructor
  · rw [hw, dictLookup_dictInsert_other _ _ _ _ (Ne.symm hne),
      dictLookup_dictInsert_self]
  · rw [hw, dictLookup_dictInsert_self]

theorem except_map_eq_ok {ε α β : Type} {f : α → β} {x : Except ε α} {b : β}
    (h : Except.map f x = Except.ok b) : ∃ a, x = Except.ok a ∧ b = f a := by
  cases x with
  | error e => simp [Except.map] at h
  | ok a => exact ⟨a, rfl, (Except.ok.inj h).symm⟩

/-- C5: when a cluster fetched more than `MAX_EVENTS` events, the cycle
keeps exactly the first `MAX_EVENTS` in fetch order, records the truncation
message with the counts, and — when nothing is skippable and the store
accepts every document — processes exactly those `MAX_EVENTS` events. -/
theorem elastefy_truncates (processMetadata : Dict → Dict) (getVersions : Dict)
    (backup_destination : Option String) (cluster : Dict)
    (event_list : List Dict) (cluster_id : String)
    (hid : dictLookup cluster "id" = some (.str cluster_id))
    (hlen : event_list.length > MAX_EVENTS) :
    (∀ (skippable : Dict → Bool) (store : String → String → Dict → ESResp) r,
      elastefy_events skippable processMetadata getVersions store
        backup_destination cluster event_list = .ok r →
      r.kept = event_list.take MAX_EVENTS ∧
      r.kept.length = MAX_EVENTS ∧
      r.truncMsg = some ("Cluster " ++ cluster_id ++ " has " ++
        Nat.repr event_list.length ++ " event records, logging only " ++
        Nat.repr MAX_EVENTS)) ∧
    ((∀ e ∈ event_list, eventWF e = true) →
      ∀ event_names, get_cluster_object_names
          (processMetadata (get_metadata_json getVersions cluster)) =
          some event_names →
      ∃ r, elastefy_events (fun _ => false) processMetadata getVersions
          (fun _ _ _ => ESResp.ok) backup_destination cluster event_list = .ok r ∧
        r.attempts.length = MAX_EVENTS) := by
  constructor
  · intro skippable store r h
    rw [elastefy_events, hid] at h
    simp only [if_pos hlen] at h
    split at h
    · simp at h
    · obtain ⟨atts, hrec, hb⟩ := except_map_eq_ok h
      subst hb
      refine ⟨rfl, ?_, rfl⟩
      simp only [List.length_take]
      omega
  · intro hwf event_names hnm
    have hwf' : ∀ e ∈ (event_list.take MAX_EVENTS).reverse, eventWF e = true :=
      fun e he => hwf e (List.take_subset _ _ (List.mem_reverse.mp he))
    obtain ⟨atts, hrun, hlenatts⟩ :=
      elastefyLoop_ok_length _ (fun _ _ _ => rfl) event_names
        (event_list.take MAX_EVENTS).reverse
        (processMetadata (get_metadata_json getVersions cluster)) hwf'
    refine ⟨⟨some ("Cluster " ++ cluster_id ++ " has " ++
        Nat.repr event_list.length ++ " event records, logging only " ++
        Nat.repr MAX_EVENTS),
      backup_destination.map (fun dest => save_new_backup dest cluster_id
        (event_list.take MAX_EVENTS) (get_metadata_json getVersions cluster)),
      event_list.take MAX_EVENTS, atts⟩, ?_, ?_⟩
    · rw [elastefy_events, hid]
      simp only [if_pos hlen, hnm, hrun, Except.map]
    · simp only [hlenatts, List.length_reverse, List.length_take]
      omega

set_option maxRecDepth 100000 in
/-- Concrete instance of C5: a cluster with 1500 fetched events keeps
exactly the first 1000, and a benign cycle processes exactly 1000. -/
theorem elastefy_truncates_witness :
    ∃ r, elastefy_events (fun _ => false) (fun d => d) []
        (fun _ _ _ => ESResp.ok) none
        [("id", .str "cid"), ("hosts", .arr []), ("name", .str "nm")]
        (List.replicate 1500
          [("event_time", Value.str "t"), ("cluster_id", Value.str "c"),
            ("message", Value.str "m")]) = .ok r ∧
      r.attempts.length = MAX_EVENTS := by
  refine (elastefy_truncates (fun d => d) [] none
    [("id", .str "cid"), ("hosts", .arr []), ("name", .str "nm")]
    (List.replicate 1500
      [("event_time", Value.str "t"), ("cluster_id", Value.str "c"),
        ("message", Value.str "m")])
    "cid" rfl (by simp [MAX_EVENTS])).2 ?_ ["nm"] rfl
  intro e he
  rw [List.eq_of_mem_replicate he]
  rfl

set_option maxRecDepth 1000000 in
/-- C6 counterexample: the backup does not hold the full fetched list.  The
source truncates `event_list` to `MAX_EVENTS` before calling
`save_new_backup`, so for a cluster with 1001 fetched events the backup's
`events.json` holds 1000 entries, not the 1001 fetched. -/
theorem backup_truncated_counterexample :
    (elastefy_events (fun _ => true) (fun d => d) [] (fun _ _ _ => ESResp.ok)
        (some "root")
        [("id", .str "cid"), ("hosts", .arr []), ("name", .str "nm")]
        (List.replicate 1001 [])).map ElastefyResult.backupWrites =
      Except.ok (some [("root/cluster_cid/events.json",
          Value.arr (List.replicate 1000 (Value.obj []))),
        ("root/cluster_cid/metadata.json",
          Value.obj [("cluster", Value.obj
            [("id", .str "cid"), ("hosts", .arr []), ("name", .str "nm")])])]) ∧
    Value.arr (List.replicate 1000 (Value.obj [])) ≠
      Value.arr ((List.replicate 1001 ([] : Dict)).map Value.obj) := by
  constructor
  · rfl
  · intro hcontra
    have harr : List.replicate 1000 (Value.obj []) =
        (List.replicate 1001 ([] : Dict)).map Value.obj := Value.arr.inj hcontra
    have hlen := congrArg List.length harr
    simp at hlen

/-- C6 (amended): with a backup destination configured, a successful cycle
writes `events.json` holding the kept event list — the fetched list
truncated to `MAX_EVENTS`, hence the full list exactly when at most
`MAX_EVENTS` were fetched — and `metadata.json` holding the metadata
document, both under `destinationRoot/cluster_<clusterId>/`, and a write
replaces any prior content at those paths. -/
theorem backup_writes_spec (processMetadata : Dict → Dict) (getVersions : Dict)
    (dest : String) (cluster : Dict) (event_list : List Dict) (cluster_id : String)
    (hid : dictLookup cluster "id" = some (.str cluster_id)) :
    ∀ (skippable : Dict → Bool) (store : String → String → Dict → ESResp) r,
      elastefy_events skippable processMetadata getVersions store (some dest)
        cluster event_list = .ok r →
      r.kept = (if event_list.length > MAX_EVENTS
        then event_list.take MAX_EVENTS else event_list) ∧
      r.backupWrites = some
        [(dest ++ "/cluster_" ++ cluster_id ++ "/events.json",
          .arr (r.kept.map .obj)),
         (dest ++ "/cluster_" ++ cluster_id ++ "/metadata.json",
          .obj (get_metadata_json getVersions cluster))] ∧
      (∀ fs,
        dictLookup (applyWrites fs
            [(dest ++ "/cluster_" ++ cluster_id ++ "/events.json",
              .arr (r.kept.map .obj)),
             (dest ++ "/cluster_" ++ cluster_id ++ "/metadata.json",
              .obj (get_metadata_json getVersions cluster))])
          (dest ++ "/cluster_" ++ cluster_id ++ "/events.json") =
          some (.arr (r.kept.map .obj)) ∧
        dictLookup (applyWrites fs
            [(dest ++ "/cluster_" ++ cluster_id ++ "/events.json",
              .arr (r.kept.map .obj)),
             (dest ++ "/cluster_" ++ cluster_id ++ "/metadata.json",
              .obj (get_metadata_json getVersions cluster))])
          (dest ++ "/cluster_" ++ cluster_id ++ "/metadata.json") =
          some (.obj (get_metadata_json getVersions cluster))) := by
  intro skippable store r h
  have hne : dest ++ "/cluster_" ++ cluster_id ++ "/events.json" ≠
      dest ++ "/cluster_" ++ cluster_id ++ "/metadata.json" := by
    intro hpq
    have hlen := congrArg String.length hpq
    have h12 : ("/events.json" : String).length = 12 := rfl
    have h14 : ("/metadata.json" : String).length = 14 := rfl
    simp only [String.length_append, h12, h14] at hlen
    omega
  rw [elastefy_events, hid] at h
  simp only [] at h
  split at h
  · simp at h
  · obtain ⟨atts, hrec, hb⟩ := except_map_eq_ok h
    subst hb
    refine ⟨rfl, rfl, ?_⟩
    exact fun fs => applyWrites_two fs _ _ _ _ hne

set_option maxRecDepth 100000 in
/-- Concrete instance of C6 (amended): the backup writes land at
`root/cluster_cid/events.json` and `root/cluster_cid/metadata.json`, and
they replace any prior content at those paths. -/
theorem backup_writes_spec_witness :
    dictLookup (applyWrites [("root/cluster_cid/events.json", Value.null)]
        [("root/cluster_cid/events.json",
          Value.arr ((List.replicate 1000 ([] : Dict)).map Value.obj)),
         ("root/cluster_cid/metadata.json",
          Value.obj [("cluster", Value.obj
            [("id", .str "cid"), ("hosts", .arr []), ("name", .str "nm")])])])
      "root/cluster_cid/events.json" =
      some (Value.arr ((List.replicate 1000 ([] : Dict)).map Value.obj)) := by
  have h := backup_writes_spec (fun d => d) [] "root"
    [("id", .str "cid"), ("hosts", .arr []), ("name", .str "nm")]
    (List.replicate 1001 []) "cid" rfl (fun _ => true) (fun _ _ _ => ESResp.ok)
    ⟨some "Cluster cid has 1001 event records, logging only 1000",
     some [("root/cluster_cid/events.json",
        Value.arr ((List.replicate 1000 ([] : Dict)).map Value.obj)),
       ("root/cluster_cid/metadata.json",
        Value.obj [("cluster", Value.obj
          [("id", .str "cid"), ("hosts", .arr []), ("name", .str "nm")])])],
     List.replicate 1000 [], []⟩ (by rfl)
  exact (h.2.2 [("root/cluster_cid/events.json", Value.null)]).1

/-! ### Host-name extraction lemmas -/

theorem collectHostNames_filterMap :
    ∀ hosts : List Value, (∀ v ∈ hosts, hostWF v = true) →
      collectHostNames hosts = some (hosts.filterMap hostNameOf) := by
  intro hosts
  induction hosts with
  | nil => intro _; rfl
  | cons v tl ih =>
      intro hwf
      have hv := hwf v (by simp)
      have htl := ih (fun x hx => hwf x (by simp [hx]))
      cases v with
      | obj h =>
          rcases hx : dictLookup h "requested_hostname" with _ | w
          · simp [collectHostNames, hx, htl, List.filterMap_cons, hostNameOf]
          · cases w with
            | str s =>
                by_cases hs : s = ""
                · subst hs
                  simp [collectHostNames, hx, htl, List.filterMap_cons,
                    hostNameOf, valueTruthy]
                · simp [collectHostNames, hx, htl, List.filterMap_cons,
                    hostNameOf, valueTruthy, hs]
            | null =>
                simp [collectHostNames, hx, htl, List.filterMap_cons,
                  hostNameOf, valueTruthy]
            | obj f => simp [hostWF, hx] at hv
            | arr l => simp [hostWF, hx] at hv
      | str s => simp [hostWF] at hv
      | arr l => simp [hostWF] at hv
      | null => simp [hostWF] at hv

/-- C7 counterexample: a host whose `requested_hostname` is present but
empty is skipped (Python truthiness), so the claim's
present-implies-collected reading fails: the code returns only the cluster
name, not the empty hostname followed by it. -/
theorem names_empty_hostname_counterexample :
    get_cluster_object_names
        [("cluster", .obj [("hosts", .arr [.obj [("requested_hostname", .str "")]]),
          ("name", .str "mycluster")])] = some ["mycluster"] ∧
    get_cluster_object_names
        [("cluster", .obj [("hosts", .arr [.obj [("requested_hostname", .str "")]]),
          ("name", .str "mycluster")])] ≠ some ["", "mycluster"] := by
  constructor
  · rfl
  · decide

/-- C7 (amended): `get_cluster_object_names` collects each host's
`requested_hostname` when it is present and truthy — a non-empty string;
hosts without one, with `None`, or with an empty string are skipped — in
the hosts' listed order, then appends the cluster's name; in particular the
spec's example `hosts=[{requested_hostname:"h1"}, {}]`, name `"mycluster"`
yields `["h1", "mycluster"]`. -/
theorem get_cluster_object_names_spec (cbd cl : Dict) (hosts : List Value)
    (nm : String)
    (hcl : dictLookup cbd "cluster" = some (.obj cl))
    (hh : dictLookup cl "hosts" = some (.arr hosts))
    (hn : dictLookup cl "name" = some (.str nm))
    (hwf : ∀ v ∈ hosts, hostWF v = true) :
    get_cluster_object_names cbd = some (hosts.filterMap hostNameOf ++ [nm]) ∧
    get_cluster_object_names
        [("cluster", .obj [("hosts", .arr [.obj [("requested_hostname", .str "h1")],
          .obj []]), ("name", .str "mycluster")])] = some ["h1", "mycluster"] := by
  constructor
  · simp [get_cluster_object_names, hcl, hh, hn,
      collectHostNames_filterMap hosts hwf]
  · rfl

/-- Concrete instance of C7 (amended): two named hosts, one host without a
hostname and one with an empty one, then the cluster name last. -/
theorem get_cluster_object_names_spec_witness :
    get_cluster_object_names
        [("cluster", .obj [("hosts", .arr
          [.obj [("requested_hostname", .str "h1")], .obj [],
           .obj [("requested_hostname", .str "")],
           .obj [("requested_hostname", .str "h2")]]),
          ("name", .str "mycluster")])] =
      some ["h1", "h2", "mycluster"] := by
  have h := (get_cluster_object_names_spec
    [("cluster", .obj [("hosts", .arr
      [.obj [("requested_hostname", .str "h1")], .obj [],
       .obj [("requested_hostname", .str "")],
       .obj [("requested_hostname", .str "h2")]]),
      ("name", .str "mycluster")])]
    [("hosts", .arr
      [.obj [("requested_hostname", .str "h1")], .obj [],
       .obj [("requested_hostname", .str "")],
       .obj [("requested_hostname", .str "h2")]]),
      ("name", .str "mycluster")]
    [.obj [("requested_hostname", .str "h1")], .obj [],
     .obj [("requested_hostname", .str "")],
     .obj [("requested_hostname", .str "h2")]]
    "mycluster" rfl rfl rfl (by decide)).1
  exact h

/-! ### UUID matcher refinement lemmas -/

theorem option_bind_some {α β : Type} (a : α) (f : α → Option β) :
    Option.bind (some a) f = f a := rfl

theorem expectHex_append (g r : List Char) (hhex : ∀ c ∈ g, isHexLower c) :
    expectHex g.length (g ++ r) = some r := by
  induction g with
  | nil => rfl
  | cons c tl ih =>
      have hc : isHexLower c = true := hhex c (by simp)
      simp only [List.length_cons, List.cons_append, expectHex, hc, if_true]
      exact ih (fun x hx => hhex x (by simp [hx]))

theorem expectHex_append_of_length (n : Nat) (g r : List Char)
    (hlen : g.length = n) (hhex : ∀ c ∈ g, isHexLower c) :
    expectHex n (g ++ r) = some r := hlen ▸ expectHex_append g r hhex

theorem expectHex_sound : ∀ {n : Nat} {s r : List Char},
    expectHex n s = some r →
    ∃ g, s = g ++ r ∧ g.length = n ∧ ∀ c ∈ g, isHexLower c := by
  intro n
  induction n with
  | zero =>
      intro s r h
      have : s = r := by simpa [expectHex] using h
      exact ⟨[], by simp [this], rfl, by simp⟩
  | succ n ih =>
      intro s r h
      match s with
      | [] => simp [expectHex] at h
      | c :: rest =>
          by_cases hc : isHexLower c
          · obtain ⟨g, hg, hlen, hhex⟩ := ih (by simpa [expectHex, hc] using h)
            refine ⟨c :: g, by simp [hg], by simp [hlen], ?_⟩
            intro x hx
            rcases List.mem_cons.mp hx with rfl | hx'
            · exact hc
            · exact hhex x hx'
          · simp [expectHex, hc] at h

theorem expectChar_sound {c : Char} {s r : List Char}
    (h : expectChar c s = some r) : s = c :: r := by
  match s with
  | [] => simp [expectChar] at h
  | d :: t =>
      by_cases hd : d = c
      · subst hd
        have : t = r := by simpa [expectChar] using h
        rw [this]
      · simp [expectChar, hd] at h

theorem expectVariant_sound {s r : List Char}
    (h : expectVariant s = some r) : ∃ v, s = v :: r ∧ isVariantChar v := by
  match s with
  | [] => simp [expectVariant] at h
  | d :: t =>
      by_cases hd : isVariantChar d
      · have : t = r := by simpa [expectVariant, hd] using h
        exact ⟨d, by rw [this], hd⟩
      · simp [expectVariant, hd] at h

theorem skipHyphen_cons_hyphen (t : List Char) : skipHyphen ('-' :: t) = t := by
  simp [skipHyphen]

theorem skipHyphen_not_hyphen {c : Char} (t : List Char) (h : c ≠ '-') :
    skipHyphen (c :: t) = c :: t := by
  simp [skipHyphen, h]

theorem skipHyphen_sound (s : List Char) :
    ∃ s0, s = s0 ++ skipHyphen s ∧ OptHyphen s0 := by
  match s with
  | [] => exact ⟨[], rfl, Or.inl rfl⟩
  | c :: t =>
      by_cases hc : c = '-'
      · subst hc
        exact ⟨['-'], by simp [skipHyphen_cons_hyphen], Or.inr rfl⟩
      · exact ⟨[], by rw [skipHyphen_not_hyphen t hc, List.nil_append], Or.inl rfl⟩

theorem isHexLower_ne_hyphen {c : Char} (h : isHexLower c = true) : c ≠ '-' := by
  intro hc
  subst hc
  exact absurd h (by decide)

theorem isVariantChar_ne_hyphen {c : Char} (h : isVariantChar c = true) :
    c ≠ '-' := by
  intro hc
  subst hc
  exact absurd h (by decide)

theorem skipHyphen_optHyphen (s0 t : List Char) (h0 : OptHyphen s0)
    (ht : ∀ c t', t = c :: t' → c ≠ '-') : skipHyphen (s0 ++ t) = t := by
  rcases h0 with rfl | rfl
  · rw [List.nil_append]
    match t with
    | [] => rfl
    | c :: t' => exact skipHyphen_not_hyphen t' (ht c t' rfl)
  · rw [List.cons_append, List.nil_append]
    exact skipHyphen_cons_hyphen t

theorem head_hex_ne_hyphen (g t : List Char) (hg : g ≠ [])
    (hhex : ∀ c ∈ g, isHexLower c) :
    ∀ c t', g ++ t = c :: t' → c ≠ '-' := by
  match g with
  | [] => exact absurd rfl hg
  | c0 :: g' =>
      intro c t' hct
      rw [List.cons_append] at hct
      injection hct with h1 _
      subst h1
      exact isHexLower_ne_hyphen (hhex c0 (by simp))

/-- The greedy scanner accepts everything the declarative UUID pattern
describes: a declarative match at the head of the input is consumed
exactly. -/
theorem matchUUID_complete (pre rest : List Char) (h : IsUUIDMatch pre) :
    matchUUID (pre ++ rest) = some rest := by
  obtain ⟨g1, g2, g3, g4, g5, s1, s2, s3, s4, v, heq,
    l1, l2, l3, l4, l5, x1, x2, x3, x4, x5, o1, o2, o3, o4, hv⟩ := h
  subst heq
  have hg2 : g2 ≠ [] := by intro h'; rw [h'] at l2; simp at l2
  have hg5 : g5 ≠ [] := by intro h'; rw [h'] at l5; simp at l5
  unfold matchUUID
  simp only [List.append_assoc, List.cons_append]
  rw [expectHex_append_of_length 8 g1 _ l1 x1, option_bind_some,
    skipHyphen_optHyphen s1 _ o1
      (head_hex_ne_hyphen g2 _ hg2 x2),
    expectHex_append_of_length 4 g2 _ l2 x2, option_bind_some,
    skipHyphen_optHyphen s2 _ o2 (fun c t' hct => by
      injection hct with h1 _
      subst h1
      decide),
    show expectChar '4' ('4' :: (g3 ++ (s3 ++ v :: (g4 ++ (s4 ++ (g5 ++ rest)))))) =
      some (g3 ++ (s3 ++ v :: (g4 ++ (s4 ++ (g5 ++ rest))))) from by simp [expectChar],
    option_bind_some,
    expectHex_append_of_length 3 g3 _ l3 x3, option_bind_some,
    skipHyphen_optHyphen s3 _ o3 (fun c t' hct => by
      injection hct with h1 _
      subst h1
      exact isVariantChar_ne_hyphen hv),
    show expectVariant (v :: (g4 ++ (s4 ++ (g5 ++ rest)))) =
      some (g4 ++ (s4 ++ (g5 ++ rest))) from by simp [expectVariant, hv],
    option_bind_some,
    expectHex_append_of_length 3 g4 _ l4 x4, option_bind_some,
    skipHyphen_optHyphen s4 _ o4
      (head_hex_ne_hyphen g5 _ hg5 x5),
    expectHex_append_of_length 12 g5 _ l5 x5]

/-- The greedy scanner accepts only inputs whose consumed prefix satisfies
the declarative UUID pattern. -/
theorem matchUUID_sound (l r : List Char) (h : matchUUID l = some r) :
    ∃ pre, l = pre ++ r ∧ IsUUIDMatch pre := by
  unfold matchUUID at h
  obtain ⟨s1, h1, h⟩ := Option.bind_eq_some.mp h
  obtain ⟨s2, h2, h⟩ := Option.bind_eq_some.mp h
  obtain ⟨s3, h3, h⟩ := Option.bind_eq_some.mp h
  obtain ⟨s4, h4, h⟩ := Option.bind_eq_some.mp h
  obtain ⟨s5, h5, h⟩ := Option.bind_eq_some.mp h
  obtain ⟨s6, h6, h⟩ := Option.bind_eq_some.mp h
  obtain ⟨g1, e1, l1, x1⟩ := expectHex_sound h1
  obtain ⟨t1, e1', o1⟩ := skipHyphen_sound s1
  obtain ⟨g2, e2, l2, x2⟩ := expectHex_sound h2
  obtain ⟨t2, e2', o2⟩ := skipHyphen_sound s2
  have e3 : skipHyphen s2 = '4' :: s3 := expectChar_sound h3
  obtain ⟨g3, e4, l3, x3⟩ := expectHex_sound h4
  obtain ⟨t3, e4', o3⟩ := skipHyphen_sound s4
  obtain ⟨v, e5, hv⟩ := expectVariant_sound h5
  obtain ⟨g4, e6, l4, x4⟩ := expectHex_sound h6
  obtain ⟨t4, e6', o4⟩ := skipHyphen_sound s6
  obtain ⟨g5, e7, l5, x5⟩ := expectHex_sound h
  refine ⟨g1 ++ (t1 ++ (g2 ++ (t2 ++ '4' :: (g3 ++ (t3 ++ v :: (g4 ++ (t4 ++ g5))))))),
    ?_, g1, g2, g3, g4, g5, t1, t2, t3, t4, v, by simp [List.append_assoc],
    l1, l2, l3, l4, l5, x1, x2, x3, x4, x5, o1, o2, o3, o4, hv⟩
  rw [e1, e1', e2, e2', e3, e4, e4', e5, e6, e6', e7]
  simp [List.append_assoc]

/-- C3: `get_no_name_message` is exactly the three stages in order — the
left-to-right accumulating per-name replacement by `"Name"`, then the UUID
substitution, then the host-prefix strip — and the UUID scanner it uses
accepts precisely the spec's pattern: 8-4-4-4-12 lowercase hex-digit
groups, each inter-group hyphen optional, version nibble `4`, variant
nibble in `{8, 9, a, b}`. -/
theorem get_no_name_message_stages :
    (∀ (msg : String) (names : List String),
      get_no_name_message msg names =
        stripHost (subUUID (names.foldl (fun m n => pyReplace m n "Name") msg))) ∧
    (∀ (m : String) (n : String) (rest : List String),
      (n :: rest).foldl (fun m' n' => pyReplace m' n' "Name") m =
        rest.foldl (fun m' n' => pyReplace m' n' "Name") (pyReplace m n "Name")) ∧
    (∀ pre rest, IsUUIDMatch pre → matchUUID (pre ++ rest) = some rest) ∧
    (∀ l r, matchUUID l = some r → ∃ pre, l = pre ++ r ∧ IsUUIDMatch pre) :=
  ⟨fun _ _ => rfl, fun _ _ _ => rfl, matchUUID_complete, matchUUID_sound⟩

/-- Concrete instance of C3: the scanner consumes a hyphenated version-4,
variant-`a` UUID exactly, and the 32 hex characters it consumes in the
unhyphenated form satisfy the declarative pattern. -/
theorem get_no_name_message_stages_witness :
    matchUUID ("123e4567-e89b-42d3-a456-426614174000".data ++ ['x']) =
      some ['x'] ∧
    (∃ pre, "123e4567e89b42d3a456426614174000".data = pre ++ [] ∧
      IsUUIDMatch pre) := by
  constructor
  · exact get_no_name_message_stages.2.2.1
      "123e4567-e89b-42d3-a456-426614174000".data ['x']
      ⟨"123e4567".data, "e89b".data, "2d3".data, "456".data,
        "426614174000".data, ['-'], ['-'], ['-'], ['-'], 'a',
        by decide, by decide, by decide, by decide, by decide, by decide,
        by decide, by decide, by decide, by decide, by decide,
        Or.inr rfl, Or.inr rfl, Or.inr rfl, Or.inr rfl, by decide⟩
  · exact get_no_name_message_stages.2.2.2
      "123e4567e89b42d3a456426614174000".data [] (by rfl)

end LogScrap
